import Mathlib

/-!
Verification of the analytic core of `streamlit_app.py` (StockUP).

The analytic pipeline of the source is embedded shallowly:

* finite numeric values are modelled exactly by rationals (`ℚ`);
* the numpy/pandas float behaviour on zero denominators (the source
  silences warnings and lets `inf`/`nan` flow) is modelled by the type
  `FVal`, which adjoins the two infinities and NaN to `ℚ`;
* the per-column pandas operations (`rolling(...).mean()`, `pct_change`,
  `fillna`, `mode`) are modelled as list functions on the columns.
-/

/-- A numpy-float-style value: a finite value (modelled exactly by a
rational), one of the two infinities, or NaN.  The source suppresses all
warnings, so division by zero produces these special values silently. -/
inductive FVal where
  | num (q : ℚ)
  | inf
  | negInf
  | nan
deriving DecidableEq, Inhabited

/-- Division as numpy float64 performs it on exact finite inputs: a nonzero
denominator gives the exact quotient, while `a / 0` gives `+inf`, `-inf`
or NaN according to the sign of `a`. -/
def fdiv (a b : ℚ) : FVal :=
  if b ≠ 0 then .num (a / b)
  else if 0 < a then .inf
  else if a < 0 then .negInf
  else .nan

/-- Comparison `x > c` of a float value against a finite bound; NaN
compares false, as in IEEE arithmetic. -/
def FVal.gtQ (x : FVal) (c : ℚ) : Bool :=
  match x with
  | .num q => decide (c < q)
  | .inf => true
  | .negInf => false
  | .nan => false

/-- Comparison `x < c` of a float value against a finite bound; NaN
compares false, as in IEEE arithmetic. -/
def FVal.ltQ (x : FVal) (c : ℚ) : Bool :=
  match x with
  | .num q => decide (q < c)
  | .inf => false
  | .negInf => true
  | .nan => false

/-- Addition of a finite constant to a float value. -/
def FVal.addQ (x : FVal) (c : ℚ) : FVal :=
  match x with
  | .num q => .num (q + c)
  | .inf => .inf
  | .negInf => .negInf
  | .nan => .nan

/-- Source operation `Series.fillna c`: NaN entries are replaced by `c`;
finite values and infinities are kept unchanged. -/
def FVal.fillna (x : FVal) (c : ℚ) : FVal :=
  match x with
  | .nan => .num c
  | y => y

/-- The default `threshold=0.001` of `classify_trend` in the source; the
calls in `analyze_trends` always use this default. -/
def defaultThreshold : ℚ := 1 / 1000

/-- Source function `classify_trend(current_value, ma_value, threshold)`:
`ratio = (current_value - ma_value) / ma_value`, then `"Increase"` when
`ratio > threshold`, `"Decrease"` when `ratio < -threshold`, otherwise
`"Stable"`.  The division follows numpy float semantics (`fdiv`), and the
comparisons treat NaN as incomparable. -/
def classify_trend (current_value ma_value threshold : ℚ) : String :=
  let ratio := fdiv (current_value - ma_value) ma_value
  if ratio.gtQ threshold then "Increase"
  else if ratio.ltQ (-threshold) then "Decrease"
  else "Stable"

/-- The nine-entry dictionary `behavior_map` of the source, as an
association list. -/
def behavior_map : List ((String × String) × String) :=
  [(("Increase", "Increase"), "Buying Pressure"),
   (("Increase", "Decrease"), "Mild Buying"),
   (("Increase", "Stable"), "Cautious Buying"),
   (("Decrease", "Increase"), "Selling Pressure"),
   (("Decrease", "Decrease"), "Mild Selling"),
   (("Decrease", "Stable"), "Cautious Selling"),
   (("Stable", "Increase"), "Volume Spike"),
   (("Stable", "Decrease"), "Low Activity"),
   (("Stable", "Stable"), "Stable Market")]

/-- Source function `get_market_behavior(price_trend, volume_trend)`:
dictionary lookup in `behavior_map`, with `"Unknown"` as the `dict.get`
default. -/
def get_market_behavior (price_trend volume_trend : String) : String :=
  (behavior_map.lookup (price_trend, volume_trend)).getD "Unknown"

/-- Source call `Series.rolling(window=w, min_periods=1).mean()` used in
`calculate_moving_averages`: element `i` is the arithmetic mean of the
trailing window of the last `w` values ending at `i` (an expanding window
while fewer than `w` values are available). -/
def rollingMean (w : ℕ) (xs : List ℚ) : List ℚ :=
  (List.range xs.length).map (fun i =>
    let win := (xs.take (i + 1)).drop (i + 1 - w)
    win.sum / (win.length : ℚ))

/-- Source function `calculate_moving_averages(data, window)`: the same
rolling mean, with the same window, applied independently to the price
column and to the volume column. -/
def calculate_moving_averages (prices volumes : List ℚ) (window : ℕ) :
    List ℚ × List ℚ :=
  (rollingMean window prices, rollingMean window volumes)

/-- Source line `data['Factor'] = data['Price'] * data['Volume']`:
element-wise product of the two columns. -/
def factorList (prices volumes : List ℚ) : List ℚ :=
  List.zipWith (· * ·) prices volumes

/-- Source lines `data['Factor'].pct_change() + 1` followed by
`.fillna(1)` in `calculate_factor_metrics`.  `pct_change` at index 0 has
no prior element and is NaN; at `i > 0` it is
`(factor[i] - factor[i-1]) / factor[i-1]` under numpy float semantics.
The `+ 1` and the NaN fill mirror the source lines exactly. -/
def factorRatioList (prices volumes : List ℚ) : List FVal :=
  (List.range (factorList prices volumes).length).map (fun i =>
    if i = 0 then FVal.fillna .nan 1
    else
      FVal.fillna
        ((fdiv ((factorList prices volumes).getD i 0 - (factorList prices volumes).getD (i - 1) 0)
          ((factorList prices volumes).getD (i - 1) 0)).addQ 1) 1)

/-- One fetched row: the `Timestamp`, `Price` and `Volume` columns the
source keeps after `fetch_intraday_data`. -/
structure Sample where
  timestamp : ℤ
  price : ℚ
  volume : ℚ
deriving DecidableEq, Inhabited

/-- One fully annotated row, with every column the pipeline adds:
moving averages, trends, combination and behavior labels, factor and
factor ratio.  `factor_ratio` is the only column that can hold a
non-finite float value. -/
structure AnnotatedRecord where
  timestamp : ℤ
  price : ℚ
  volume : ℚ
  price_ma : ℚ
  volume_ma : ℚ
  price_trend : String
  volume_trend : String
  combination : String
  behavior : String
  factor : ℚ
  factor_ratio : FVal
deriving DecidableEq, Inhabited

/-- The annotated record the pipeline builds for row `i`: the loop body of
`analyze_trends` (per-row `classify_trend` on price and volume with the
default threshold, the `combination` string and `get_market_behavior`)
together with the row-`i` entries of the columns added by
`calculate_moving_averages` and `calculate_factor_metrics`. -/
def annotateRecord (samples : List Sample) (window : ℕ) (i : ℕ) : AnnotatedRecord :=
  let prices := samples.map Sample.price
  let volumes := samples.map Sample.volume
  let mas := calculate_moving_averages prices volumes window
  let price_trend := classify_trend (prices.getD i 0) (mas.1.getD i 0) defaultThreshold
  let volume_trend := classify_trend (volumes.getD i 0) (mas.2.getD i 0) defaultThreshold
  { timestamp := (samples.getD i default).timestamp
    price := prices.getD i 0
    volume := volumes.getD i 0
    price_ma := mas.1.getD i 0
    volume_ma := mas.2.getD i 0
    price_trend := price_trend
    volume_trend := volume_trend
    combination := "Price " ++ price_trend ++ " & Volume " ++ volume_trend
    behavior := get_market_behavior price_trend volume_trend
    factor := (factorList prices volumes).getD i 0
    factor_ratio := (factorRatioList prices volumes).getD i .nan }

/-- The analysis pipeline run by `main` on the fetched rows, in source
order: `calculate_moving_averages`, then `analyze_trends`, then
`calculate_factor_metrics`, producing one annotated record per row. -/
def analyze (samples : List Sample) (window : ℕ) : List AnnotatedRecord :=
  (List.range samples.length).map (annotateRecord samples window)

/-- Number of occurrences of the label `x` in the column `l`. -/
def countLabel (l : List String) (x : String) : ℕ :=
  (l.filter (fun y => y == x)).length

/-- The largest occurrence count of any label in `l`. -/
def maxCount (l : List String) : ℕ :=
  (l.map (countLabel l)).foldr max 0

/-- Strict lexicographic comparison of character lists by code point, the
order in which `np.sort` (hence pandas `mode()`) sorts string labels. -/
def listLtB : List Char → List Char → Bool
  | [], [] => false
  | [], _ :: _ => true
  | _ :: _, [] => false
  | c :: cs, d :: ds => if c < d then true else if d < c then false else listLtB cs ds

/-- Strict lexicographic comparison of strings by code point. -/
def strLtB (a b : String) : Bool :=
  listLtB a.data b.data

/-- The lexicographically smaller of two strings (the left one on ties). -/
def strMin (a b : String) : String :=
  if strLtB b a then b else a

/-- Source line `data['Behavior'].mode().iloc[0]`: pandas `mode()` returns
the labels of maximal count in sorted (lexicographic) order, and
`.iloc[0]` takes the first of them, i.e. the lexicographically least
label among the most frequent ones. -/
def pandasMode (l : List String) : Option String :=
  match l.filter (fun x => countLabel l x == maxCount l) with
  | [] => none
  | x :: xs => some (xs.foldl strMin x)

/-- Modelled from the spec: the mode with ties broken by first-encountered
order in the record sequence (the tie-break the spec states). -/
def firstEncounteredMode (l : List String) : Option String :=
  match l.filter (fun x => countLabel l x == maxCount l) with
  | [] => none
  | x :: _ => some x

/-! Helper lemmas. -/

/-- Reading an element of a mapped range at an in-bounds index. -/
theorem getD_map_range {α : Type} (f : ℕ → α) (d : α) {n i : ℕ} (h : i < n) :
    ((List.range n).map f).getD i d = f i := by
  rw [List.getD_eq_getElem _ _ (by simpa using h)]
  simp

/-- With a nonzero moving average, `classify_trend` is the pure rational
three-way comparison of the deviation ratio against the threshold. -/
theorem classify_trend_cases (v m t : ℚ) (hm : m ≠ 0) :
    classify_trend v m t =
      if t < (v - m) / m then "Increase"
      else if (v - m) / m < -t then "Decrease" else "Stable" := by
  simp [classify_trend, fdiv, hm, FVal.gtQ, FVal.ltQ]

/-- The three labels `classify_trend` can produce. -/
def validTrend (s : String) : Prop :=
  s = "Increase" ∨ s = "Decrease" ∨ s = "Stable"

/-- C3: with a nonzero moving average `m` and a positive threshold `t`, the
trend classifier returns `"Increase"` exactly when `(v - m)/m > t`,
`"Decrease"` exactly when `(v - m)/m < -t`, and `"Stable"` otherwise; at the
exact boundary `v = m * (1 + t)` the ratio equals `t` and the result is
`"Stable"`, since the comparison is strict. -/
theorem classify_trend_threshold_spec (v m t : ℚ) (hm : m ≠ 0) (ht : 0 < t) :
    (classify_trend v m t = "Increase" ↔ (v - m) / m > t) ∧
    (classify_trend v m t = "Decrease" ↔ (v - m) / m < -t) ∧
    (classify_trend v m t = "Stable" ↔ ¬(v - m) / m > t ∧ ¬(v - m) / m < -t) ∧
    classify_trend (m * (1 + t)) m t = "Stable" := by
  have hb : (m * (1 + t) - m) / m = t := by
    field_simp
    ring
  refine ⟨?_, ?_, ?_, ?_⟩
  · rw [classify_trend_cases v m t hm]
    split_ifs with h1 h2
    · simp [h1]
    · simp [h1]
    · simp [h1]
  · rw [classify_trend_cases v m t hm]
    split_ifs with h1 h2
    · simp
      linarith
    · simp [h2]
    · simp [h2]
  · rw [classify_trend_cases v m t hm]
    split_ifs with h1 h2
    · simp [h1]
    · simp [h2]
    · simp [h1, h2]
  · rw [classify_trend_cases _ m t hm, hb]
    have h1 : ¬t < t := lt_irrefl t
    have h2 : ¬t < -t := by linarith
    simp [h1, h2]

/-- Witness for C3 at `v = 2`, `m = 1`, `t = 1/1000`: the boundary input
`m * (1 + t)` is classified `"Stable"`. -/
theorem classify_trend_threshold_spec_witness :
    classify_trend (1 * (1 + 1/1000)) 1 (1/1000) = "Stable" :=
  (classify_trend_threshold_spec 2 1 (1/1000) (by norm_num) (by norm_num)).2.2.2

/-- C4: the behavior mapper is total on the nine valid trend pairs and
matches the table of the source dictionary; it never returns `"Unknown"`
for a valid pair. -/
theorem get_market_behavior_total :
    (∀ p v, validTrend p → validTrend v → get_market_behavior p v ≠ "Unknown") ∧
    get_market_behavior "Increase" "Increase" = "Buying Pressure" ∧
    get_market_behavior "Increase" "Decrease" = "Mild Buying" ∧
    get_market_behavior "Increase" "Stable" = "Cautious Buying" ∧
    get_market_behavior "Decrease" "Increase" = "Selling Pressure" ∧
    get_market_behavior "Decrease" "Decrease" = "Mild Selling" ∧
    get_market_behavior "Decrease" "Stable" = "Cautious Selling" ∧
    get_market_behavior "Stable" "Increase" = "Volume Spike" ∧
    get_market_behavior "Stable" "Decrease" = "Low Activity" ∧
    get_market_behavior "Stable" "Stable" = "Stable Market" := by
  refine ⟨?_, by decide⟩
  intro p v hp hv
  unfold validTrend at hp hv
  rcases hp with rfl | rfl | rfl <;> rcases hv with rfl | rfl | rfl <;> decide

/-- Witness for C4 at the pair `("Stable", "Increase")`. -/
theorem get_market_behavior_total_witness :
    get_market_behavior "Stable" "Increase" ≠ "Unknown" :=
  get_market_behavior_total.1 "Stable" "Increase" (by simp [validTrend]) (by simp [validTrend])

/-- The window slice taken at row `i` equals the spec's trailing window of
the last `min(w, i+1)` elements starting at `max(0, i+1-w)`. -/
theorem rollingMean_slice (xs : List ℚ) (w i : ℕ) :
    (xs.take (i + 1)).drop (i + 1 - w) = (xs.drop (i + 1 - w)).take (w ⊓ (i + 1)) := by
  rw [List.drop_take]
  have hkey : i + 1 - (i + 1 - w) = w ⊓ (i + 1) := by omega
  rw [hkey]

/-- C5: the rolling mean keeps the input length; element `i` is the
arithmetic mean of the trailing window of the last `min(w, i+1)` elements
ending at `i` (an expanding window during warm-up, then a fixed trailing
window of size `w`); with `w = 1` it is the element-wise identity; a
single-element input yields that element as its own average; and
`calculate_moving_averages` applies the same computation with the same
window to the price and the volume columns. -/
theorem rollingMean_spec (xs : List ℚ) (w : ℕ) (hw : 1 ≤ w) :
    (rollingMean w xs).length = xs.length ∧
    (∀ i, i < xs.length →
      (rollingMean w xs).getD i 0 =
        ((xs.drop (i + 1 - w)).take (w ⊓ (i + 1))).sum
          / (((xs.drop (i + 1 - w)).take (w ⊓ (i + 1))).length : ℚ)) ∧
    rollingMean 1 xs = xs ∧
    (∀ a : ℚ, rollingMean w [a] = [a]) ∧
    (∀ p v : List ℚ,
      calculate_moving_averages p v w = (rollingMean w p, rollingMean w v)) := by
  refine ⟨by simp [rollingMean], ?_, ?_, ?_, fun p v => rfl⟩
  · intro i hi
    unfold rollingMean
    rw [getD_map_range _ _ hi]
    show ((xs.take (i + 1)).drop (i + 1 - w)).sum
        / (((xs.take (i + 1)).drop (i + 1 - w)).length : ℚ) = _
    rw [rollingMean_slice]
  · refine List.ext_getElem (by simp [rollingMean]) ?_
    intro i h1 h2
    simp only [rollingMean, List.getElem_map, List.getElem_range]
    show ((xs.take (i + 1)).drop (i + 1 - 1)).sum
        / (((xs.take (i + 1)).drop (i + 1 - 1)).length : ℚ) = _
    have hsl : (xs.take (i + 1)).drop (i + 1 - 1) = [xs[i]] := by
      rw [rollingMean_slice]
      have h3 : i + 1 - 1 = i := by omega
      have h4 : 1 ⊓ (i + 1) = 1 := by omega
      rw [h3, h4, List.drop_eq_getElem_cons h2]
      rfl
    rw [hsl]
    simp
  · intro a
    have h0 : 1 - w = 0 := by omega
    norm_num [rollingMean, h0, List.range_succ]

/-- Witness for C5 at `w = 2`, `xs = [1, 3]`. -/
theorem rollingMean_spec_witness :
    (rollingMean 2 [(1 : ℚ), 3]).length = 2 ∧ rollingMean 1 [(1 : ℚ), 3] = [1, 3] :=
  ⟨(rollingMean_spec [(1 : ℚ), 3] 2 (by norm_num)).1,
   (rollingMean_spec [(1 : ℚ), 3] 2 (by norm_num)).2.2.1⟩

/-- Each run of the pipeline emits exactly one record per input row. -/
theorem analyze_length (samples : List Sample) (window : ℕ) :
    (analyze samples window).length = samples.length := by
  simp [analyze]

/-- In-bounds rows of the pipeline output are the per-row annotation. -/
theorem analyze_getD (samples : List Sample) (window i : ℕ) (hi : i < samples.length) :
    (analyze samples window).getD i default = annotateRecord samples window i := by
  unfold analyze
  exact getD_map_range _ _ hi

/-- C9: the annotated sequence has the same length as the input sample
sequence and preserves its order; in particular the `i`-th output record
carries the `i`-th input sample's timestamp. -/
theorem analyze_preserves_length_and_order (samples : List Sample) (window : ℕ) :
    (analyze samples window).length = samples.length ∧
    ∀ i, i < samples.length →
      ((analyze samples window).getD i default).timestamp =
        (samples.getD i default).timestamp := by
  refine ⟨analyze_length samples window, ?_⟩
  intro i hi
  rw [analyze_getD samples window i hi]
  rfl

/-- Witness for C9 on a two-sample input. -/
theorem analyze_preserves_length_and_order_witness :
    (analyze [⟨3, 1, 2⟩, ⟨7, 4, 5⟩] 2).length = 2 ∧
    ((analyze [⟨3, 1, 2⟩, ⟨7, 4, 5⟩] 2).getD 1 default).timestamp = 7 :=
  ⟨(analyze_preserves_length_and_order [⟨3, 1, 2⟩, ⟨7, 4, 5⟩] 2).1,
   (analyze_preserves_length_and_order [⟨3, 1, 2⟩, ⟨7, 4, 5⟩] 2).2 1 (by norm_num)⟩

/-- The factor column has one entry per row of the two input columns. -/
theorem factorList_length (prices volumes : List ℚ) :
    (factorList prices volumes).length = min prices.length volumes.length := by
  simp [factorList]

/-- Percentage change plus one is the plain quotient when the previous
value is nonzero. -/
theorem pct_change_add_one (a b : ℚ) (hb : b ≠ 0) : (a - b) / b + 1 = a / b := by
  field_simp

/-- C6: the first annotated record's factor ratio is exactly 1, whatever
the first sample's price and volume are: `pct_change` has no prior row at
index 0 and leaves NaN there, and `fillna(1)` turns it into 1. -/
theorem analyze_first_factor_ratio (samples : List Sample) (window : ℕ)
    (h : samples ≠ []) :
    ((analyze samples window).getD 0 default).factor_ratio = .num 1 := by
  have hlen : 0 < samples.length := List.length_pos.mpr h
  rw [analyze_getD samples window 0 hlen]
  show (factorRatioList (samples.map Sample.price) (samples.map Sample.volume)).getD 0 .nan
      = .num 1
  unfold factorRatioList
  have hflen : 0 < (factorList (samples.map Sample.price) (samples.map Sample.volume)).length := by
    simpa [factorList] using hlen
  rw [getD_map_range _ _ hflen]
  simp [FVal.fillna]

/-- Witness for C6 on a one-sample input. -/
theorem analyze_first_factor_ratio_witness :
    ((analyze [⟨0, 2, 3⟩] 1).getD 0 default).factor_ratio = .num 1 :=
  analyze_first_factor_ratio [⟨0, 2, 3⟩] 1 (by simp)

/-- C7: the factor engine sets `factor[i] = price[i] * volume[i]` at every
in-bounds index, and for `i > 0` with a nonzero preceding factor the ratio
column equals the quotient of consecutive factors — the source's
percentage change plus one equals `factor[i] / factor[i-1]`. -/
theorem calculate_factor_metrics_spec (prices volumes : List ℚ) (i : ℕ)
    (hi : i < (factorList prices volumes).length) :
    (factorList prices volumes).getD i 0 = prices.getD i 0 * volumes.getD i 0 ∧
    (0 < i → (factorList prices volumes).getD (i - 1) 0 ≠ 0 →
      (factorRatioList prices volumes).getD i .nan =
        .num ((factorList prices volumes).getD i 0
          / (factorList prices volumes).getD (i - 1) 0)) := by
  constructor
  · have h1 : i < prices.length := by
      rw [factorList_length] at hi
      omega
    have h2 : i < volumes.length := by
      rw [factorList_length] at hi
      omega
    rw [List.getD_eq_getElem _ _ hi, List.getD_eq_getElem _ _ h1, List.getD_eq_getElem _ _ h2]
    simp [factorList]
  · intro h0 hne
    unfold factorRatioList
    rw [getD_map_range _ _ hi]
    have hiz : ¬i = 0 := by omega
    rw [if_neg hiz]
    unfold fdiv
    rw [if_pos hne]
    show FVal.num (((factorList prices volumes).getD i 0
        - (factorList prices volumes).getD (i - 1) 0)
        / (factorList prices volumes).getD (i - 1) 0 + 1) = _
    congr 1
    exact pct_change_add_one _ _ hne

/-- Witness for C7 at `prices = [1, 2]`, `volumes = [3, 4]`, `i = 1`
(factors `[3, 8]`). -/
theorem calculate_factor_metrics_spec_witness :
    (factorRatioList [(1 : ℚ), 2] [3, 4]).getD 1 .nan =
      .num ((factorList [(1 : ℚ), 2] [3, 4]).getD 1 0
        / (factorList [(1 : ℚ), 2] [3, 4]).getD 0 0) :=
  (calculate_factor_metrics_spec [(1 : ℚ), 2] [3, 4] 1 (by norm_num [factorList])).2
    (by norm_num) (by norm_num [factorList])

/-- C10: when two consecutive factors are both zero, `pct_change` computes
0/0 = NaN, and the later blanket `fillna(1)` (which replaces every NaN,
not only the first row's) silently assigns the sentinel ratio 1 to that
row instead of raising an error. -/
theorem factor_ratio_zero_zero (prices volumes : List ℚ) (i : ℕ)
    (hi : i < (factorList prices volumes).length) (h0 : 0 < i)
    (hprev : (factorList prices volumes).getD (i - 1) 0 = 0)
    (hcur : (factorList prices volumes).getD i 0 = 0) :
    (factorRatioList prices volumes).getD i .nan = .num 1 := by
  unfold factorRatioList
  rw [getD_map_range _ _ hi]
  have hiz : ¬i = 0 := by omega
  rw [if_neg hiz, hprev, hcur]
  norm_num [fdiv, FVal.addQ, FVal.fillna]

/-- Witness for C10 at `prices = [1, 1]`, `volumes = [0, 0]`, `i = 1`
(factors `[0, 0]`). -/
theorem factor_ratio_zero_zero_witness :
    (factorRatioList [(1 : ℚ), 1] [0, 0]).getD 1 .nan = .num 1 :=
  factor_ratio_zero_zero [(1 : ℚ), 1] [0, 0] 1 (by norm_num [factorList]) (by norm_num)
    (by norm_num [factorList]) (by norm_num [factorList])

/-- C1 counterexample: a zero denominator raises nothing.  With a zero
moving average, `classify_trend` returns the label `"Increase"` computed
from an infinite ratio, and with a zero preceding factor the value `∞`
lands in the factor-ratio column — no distinct error condition exists. -/
theorem zero_denominator_no_error :
    classify_trend 5 0 defaultThreshold = "Increase" ∧
    factorRatioList [1, 1] [0, 2] = [.num 1, .inf] := by
  constructor
  · norm_num [classify_trend, fdiv, FVal.gtQ, FVal.ltQ, defaultThreshold]
  · norm_num [factorRatioList, factorList, List.range_succ, FVal.fillna, FVal.addQ, fdiv]

/-- C1 amended: on a zero denominator the code propagates the numpy
special values instead of raising.  A zero moving average classifies the
current value by its sign through an infinite or NaN ratio ("Increase"
for positive, "Decrease" for negative, "Stable" for the NaN of 0/0), and
a zero preceding factor puts `±∞` into the factor-ratio column — or the
NaN-filled sentinel 1 when the current factor is also zero. -/
theorem zero_denominator_propagates (v t : ℚ) (prices volumes : List ℚ) (i : ℕ)
    (hi : i < (factorList prices volumes).length) (h0 : 0 < i)
    (hprev : (factorList prices volumes).getD (i - 1) 0 = 0) :
    classify_trend v 0 t =
      (if 0 < v then "Increase" else if v < 0 then "Decrease" else "Stable") ∧
    (factorRatioList prices volumes).getD i .nan =
      (if 0 < (factorList prices volumes).getD i 0 then .inf
       else if (factorList prices volumes).getD i 0 < 0 then .negInf
       else .num 1) := by
  constructor
  · rcases lt_trichotomy 0 v with hv | hv | hv
    · simp [classify_trend, fdiv, hv, FVal.gtQ]
    · rw [← hv]
      simp [classify_trend, fdiv, FVal.gtQ, FVal.ltQ]
    · simp [classify_trend, fdiv, hv, lt_asymm hv, FVal.gtQ, FVal.ltQ]
  · unfold factorRatioList
    rw [getD_map_range _ _ hi]
    have hiz : ¬i = 0 := by omega
    rw [if_neg hiz, hprev]
    generalize (factorList prices volumes).getD i 0 = c
    rcases lt_trichotomy 0 c with hc | hc | hc
    · simp [fdiv, hc, FVal.addQ, FVal.fillna]
    · rw [← hc]
      simp [fdiv, FVal.addQ, FVal.fillna]
    · simp [fdiv, hc, lt_asymm hc, FVal.addQ, FVal.fillna]

/-- Witness for the amended C1 at `v = 5`, zero moving average, and
factors `[0, 2]`. -/
theorem zero_denominator_propagates_witness :
    classify_trend 5 0 (1 / 1000) =
      (if (0 : ℚ) < 5 then "Increase" else if (5 : ℚ) < 0 then "Decrease" else "Stable") ∧
    (factorRatioList [1, 1] [0, 2]).getD 1 .nan =
      (if 0 < (factorList [1, 1] [0, 2]).getD 1 0 then FVal.inf
       else if (factorList [1, 1] [0, 2]).getD 1 0 < 0 then FVal.negInf
       else FVal.num 1) :=
  zero_denominator_propagates 5 (1 / 1000) [1, 1] [0, 2] 1 (by norm_num [factorList])
    (by norm_num) (by norm_num [factorList])

/-- C8 counterexample: a sample with a negative price — invalid input per
the spec — is not rejected and triggers no failure: the pipeline computes
a complete annotated record for it, trend labels, behavior, factor and
all, instead of failing fast with an InvalidInput classification. -/
theorem analyze_accepts_negative_price :
    analyze [⟨0, -5, 10⟩] 2 =
      [{ timestamp := 0, price := -5, volume := 10, price_ma := -5, volume_ma := 10,
         price_trend := "Stable", volume_trend := "Stable",
         combination := "Price Stable & Volume Stable", behavior := "Stable Market",
         factor := -50, factor_ratio := .num 1 }] := by
  norm_num [analyze, annotateRecord, calculate_moving_averages, rollingMean, factorList,
    factorRatioList, classify_trend, get_market_behavior, behavior_map, defaultThreshold,
    fdiv, FVal.gtQ, FVal.ltQ, FVal.addQ, FVal.fillna, List.range_succ]
  decide

/-- C8 amended: the pipeline performs no input validation — whatever the
samples are, including ones with a negative price or a negative volume, it
annotates every sample and emits exactly one record per input row rather
than failing fast. -/
theorem analyze_no_validation (s : Sample) (rest : List Sample) (window : ℕ)
    (_hbad : s.price < 0 ∨ s.volume < 0) :
    (analyze (s :: rest) window).length = rest.length + 1 := by
  rw [analyze_length]
  simp

/-- Witness for the amended C8 on the negative-price sample. -/
theorem analyze_no_validation_witness :
    (analyze [⟨0, -5, 10⟩] 2).length = 1 :=
  analyze_no_validation ⟨0, -5, 10⟩ [] 2 (Or.inl (by norm_num))

/-- Code-point comparison of character lists is irreflexive. -/
theorem listLtB_irrefl (l : List Char) : listLtB l l = false := by
  induction l with
  | nil => rfl
  | cons c cs ih => simp [listLtB, ih]

/-- Code-point comparison of character lists is asymmetric. -/
theorem listLtB_asymm (a b : List Char) (h : listLtB a b = true) :
    listLtB b a = false := by
  induction a generalizing b with
  | nil =>
    cases b with
    | nil => simp [listLtB] at h
    | cons d ds => simp [listLtB]
  | cons c cs ih =>
    cases b with
    | nil => simp [listLtB] at h
    | cons d ds =>
      by_cases h1 : c < d
      · simp [listLtB, h1, lt_asymm h1]
      · by_cases h2 : d < c
        · simp [listLtB, h1, h2] at h
        · simp only [listLtB, h1, h2, if_false] at h ⊢
          exact ih ds h

/-- Code-point comparison of character lists is cotransitive: a strict
descent from `a` to `c` passes on either side of any `b`. -/
theorem listLtB_cotrans (a b c : List Char) (h : listLtB a c = true) :
    listLtB a b = true ∨ listLtB b c = true := by
  induction a generalizing b c with
  | nil =>
    cases c with
    | nil => simp [listLtB] at h
    | cons y ys =>
      cases b with
      | nil => right; simp [listLtB]
      | cons z zs => left; simp [listLtB]
  | cons x xs ih =>
    cases c with
    | nil => simp [listLtB] at h
    | cons y ys =>
      cases b with
      | nil => right; simp [listLtB]
      | cons z zs =>
        by_cases h1 : x < y
        · by_cases h2 : x < z
          · left; simp [listLtB, h2]
          · right
            have h3 : z < y := lt_of_le_of_lt (not_lt.mp h2) h1
            simp [listLtB, h3]
        · by_cases h2 : y < x
          · simp [listLtB, h1, h2] at h
          · have hxy : x = y := le_antisymm (not_lt.mp h2) (not_lt.mp h1)
            simp only [listLtB, h1, h2, if_false] at h
            by_cases h3 : x < z
            · left; simp [listLtB, h3]
            · by_cases h4 : z < x
              · right
                have h5 : z < y := hxy ▸ h4
                simp [listLtB, h5]
              · rcases ih zs ys h with h6 | h6
                · left; simp [listLtB, h3, h4, h6]
                · right
                  have hzy : ¬z < y := hxy ▸ h4
                  have hyz : ¬y < z := by
                    rw [← hxy]
                    exact h3
                  simp [listLtB, hzy, hyz, h6]

/-- String code-point comparison is irreflexive. -/
theorem strLtB_irrefl (a : String) : strLtB a a = false :=
  listLtB_irrefl a.data

/-- String code-point comparison is asymmetric. -/
theorem strLtB_asymm (a b : String) (h : strLtB a b = true) : strLtB b a = false :=
  listLtB_asymm a.data b.data h

/-- Being not-above is transitive for string code-point comparison. -/
theorem strLtB_le_trans (a b c : String) (h1 : strLtB a b = false)
    (h2 : strLtB b c = false) : strLtB a c = false := by
  cases hx : strLtB a c with
  | false => rfl
  | true =>
    rcases listLtB_cotrans a.data b.data c.data hx with h4 | h4
    · rw [show listLtB a.data b.data = strLtB a b from rfl, h1] at h4
      exact absurd h4 (by simp)
    · rw [show listLtB b.data c.data = strLtB b c from rfl, h2] at h4
      exact absurd h4 (by simp)

/-- `strMin` returns one of its two arguments. -/
theorem strMin_eq_or (a b : String) : strMin a b = a ∨ strMin a b = b := by
  unfold strMin
  split_ifs <;> simp

/-- The two-string minimum is not above the left argument. -/
theorem strMin_not_above_left (a b : String) : strLtB a (strMin a b) = false := by
  unfold strMin
  split_ifs with h
  · exact strLtB_asymm b a h
  · exact strLtB_irrefl a

/-- The two-string minimum is not above the right argument. -/
theorem strMin_not_above_right (a b : String) : strLtB b (strMin a b) = false := by
  unfold strMin
  split_ifs with h
  · exact strLtB_irrefl b
  · simp only [Bool.not_eq_true] at h
    exact h

/-- The fold of `strMin` yields the accumulator or a list element. -/
theorem foldl_strMin_mem (xs : List String) (x : String) :
    xs.foldl strMin x = x ∨ xs.foldl strMin x ∈ xs := by
  induction xs generalizing x with
  | nil => left; rfl
  | cons z zs ih =>
    simp only [List.foldl_cons]
    rcases ih (strMin x z) with h | h
    · rcases strMin_eq_or x z with h2 | h2
      · left
        rw [h, h2]
      · right
        rw [h, h2]
        exact List.mem_cons_self _ _
    · right
      exact List.mem_cons_of_mem _ h

/-- The fold of `strMin` is not above its accumulator. -/
theorem foldl_strMin_le_acc (xs : List String) (x : String) :
    strLtB x (xs.foldl strMin x) = false := by
  induction xs generalizing x with
  | nil => exact strLtB_irrefl x
  | cons z zs ih =>
    simp only [List.foldl_cons]
    exact strLtB_le_trans x (strMin x z) _ (strMin_not_above_left x z) (ih (strMin x z))

/-- The fold of `strMin` is not above any list element. -/
theorem foldl_strMin_le_mem (xs : List String) (x y : String) (hy : y ∈ xs) :
    strLtB y (xs.foldl strMin x) = false := by
  induction xs generalizing x with
  | nil => simp at hy
  | cons z zs ih =>
    simp only [List.foldl_cons]
    rcases List.mem_cons.mp hy with rfl | h2
    · exact strLtB_le_trans y (strMin x y) _ (strMin_not_above_right x y)
        (foldl_strMin_le_acc zs (strMin x y))
    · exact ih (strMin x z) h2

/-- The fold of `strMin` is not above the accumulator or any element. -/
theorem foldl_strMin_le (xs : List String) (x y : String) (hy : y = x ∨ y ∈ xs) :
    strLtB y (xs.foldl strMin x) = false := by
  rcases hy with rfl | h
  · exact foldl_strMin_le_acc xs y
  · exact foldl_strMin_le_mem xs x y h

/-- Every member of a list of naturals is bounded by the `max`-fold. -/
theorem le_foldr_max (ns : List ℕ) (n : ℕ) (h : n ∈ ns) : n ≤ ns.foldr max 0 := by
  induction ns with
  | nil => simp at h
  | cons m ms ih =>
    simp only [List.foldr_cons]
    rcases List.mem_cons.mp h with rfl | h2
    · exact le_max_left _ _
    · exact le_trans (ih h2) (le_max_right _ _)

/-- The `max`-fold of a list of naturals is zero or a member. -/
theorem foldr_max_mem (ns : List ℕ) : ns.foldr max 0 = 0 ∨ ns.foldr max 0 ∈ ns := by
  induction ns with
  | nil => left; rfl
  | cons m ms ih =>
    simp only [List.foldr_cons]
    rcases max_choice m (ms.foldr max 0) with h | h
    · right
      rw [h]
      exact List.mem_cons_self _ _
    · rw [h]
      rcases ih with h2 | h2
      · left; exact h2
      · right; exact List.mem_cons_of_mem _ h2

/-- A label occurring in the column has a positive count. -/
theorem countLabel_pos (l : List String) (y : String) (hy : y ∈ l) :
    0 < countLabel l y := by
  unfold countLabel
  rw [List.length_pos]
  intro hnil
  have hcontra := List.filter_eq_nil_iff.mp hnil y hy
  simp at hcontra

/-- Every label's count is bounded by the maximal count. -/
theorem countLabel_le_maxCount (l : List String) (y : String) (hy : y ∈ l) :
    countLabel l y ≤ maxCount l :=
  le_foldr_max _ _ (List.mem_map_of_mem _ hy)

/-- On a nonempty column, some label attains the maximal count. -/
theorem maxCount_attained (l : List String) (h : l ≠ []) :
    ∃ y ∈ l, countLabel l y = maxCount l := by
  rcases foldr_max_mem (l.map (countLabel l)) with h0 | hmem
  · cases l with
    | nil => exact absurd rfl h
    | cons z zs =>
      have h1 : 0 < countLabel (z :: zs) z := countLabel_pos _ z (List.mem_cons_self z zs)
      have h2 : countLabel (z :: zs) z ≤ maxCount (z :: zs) :=
        countLabel_le_maxCount _ z (List.mem_cons_self z zs)
      have h3 : maxCount (z :: zs) = 0 := h0
      omega
  · rcases List.mem_map.mp hmem with ⟨y, hy, hcount⟩
    exact ⟨y, hy, hcount⟩

/-- C2 counterexample: with the behavior column
`["Volume Spike", "Buying Pressure"]` both labels tie at one occurrence.
The first-encountered tied label is `"Volume Spike"`, but the source's
`mode().iloc[0]` returns `"Buying Pressure"`, the lexicographically first
of the sorted tied labels — not the first-encountered one. -/
theorem pandasMode_not_first_encountered :
    pandasMode ["Volume Spike", "Buying Pressure"] = some "Buying Pressure" ∧
    firstEncounteredMode ["Volume Spike", "Buying Pressure"] = some "Volume Spike" ∧
    ("Buying Pressure" : String) ≠ "Volume Spike" := by
  refine ⟨by decide, by decide, by decide⟩

/-- C2 amended: on a nonempty behavior column, `mode().iloc[0]` returns a
label of maximal occurrence count, and whenever several labels tie at the
maximal count the returned one is the lexicographically least tied label
(pandas sorts the modes), not the first-encountered one. -/
theorem pandasMode_spec (l : List String) :
    (l ≠ [] → (pandasMode l).isSome) ∧
    (∀ x, pandasMode l = some x →
      x ∈ l ∧ countLabel l x = maxCount l ∧
      ∀ y ∈ l, countLabel l y = maxCount l → strLtB y x = false) := by
  constructor
  · intro h
    rcases maxCount_attained l h with ⟨y, hy, hcount⟩
    unfold pandasMode
    cases hf : l.filter (fun x => countLabel l x == maxCount l) with
    | nil =>
      have hyf : y ∈ l.filter (fun x => countLabel l x == maxCount l) :=
        List.mem_filter.mpr ⟨hy, by simp [hcount]⟩
      rw [hf] at hyf
      simp at hyf
    | cons a as => simp
  · intro x hx
    unfold pandasMode at hx
    cases hf : l.filter (fun x => countLabel l x == maxCount l) with
    | nil =>
      rw [hf] at hx
      simp at hx
    | cons a as =>
      rw [hf] at hx
      simp only [Option.some.injEq] at hx
      subst hx
      have hmem : as.foldl strMin a ∈ a :: as := by
        rcases foldl_strMin_mem as a with h | h
        · rw [h]
          exact List.mem_cons_self _ _
        · exact List.mem_cons_of_mem _ h
      have hmem2 : as.foldl strMin a ∈ l.filter (fun x => countLabel l x == maxCount l) := by
        rw [hf]
        exact hmem
      have hfl := List.mem_filter.mp hmem2
      refine ⟨hfl.1, by simpa using hfl.2, ?_⟩
      intro y hy hcy
      have hyf : y ∈ l.filter (fun x => countLabel l x == maxCount l) :=
        List.mem_filter.mpr ⟨hy, by simp [hcy]⟩
      rw [hf] at hyf
      refine foldl_strMin_le as a y ?_
      rcases List.mem_cons.mp hyf with rfl | h
      · exact Or.inl rfl
      · exact Or.inr h

/-- Witness for the amended C2 on the tied two-label column. -/
theorem pandasMode_spec_witness :
    (pandasMode ["Volume Spike", "Buying Pressure"]).isSome :=
  (pandasMode_spec ["Volume Spike", "Buying Pressure"]).1 (by simp)
